import Mathlib

/-!
# ConfigServerGetter (`get_configserver.go`)

A shallow embedding of `ConfigServerGetter.GetFile` and its helpers
(`readYAML`, `xpathYAML`, `newKeyedNodes`, `save`), together with the part of
Go's `net/url` that `GetFile` uses to take the reserved query parameters off
the URL (`URL.Query`, `Values.Get`, `Values.Del`, `Values.Encode`).

Go strings and byte slices are sequences of bytes.  The HTTP delegate, the
file system errors, the YAML decoder and encoder and the path-query library
are outside the repository; they are the fields of `Env`.  `GetFile` runs in a
`World`: the files by name, and the trace of the calls made out of the
repository.  A Go slice is `nil` or a list, as `xpathYAML` tells the two
apart, and indexing an empty slice is a panic.

Left out: file modes (`fileMode`), the deferred `Close` of the files, and the
methods that only forward to the delegate (`SetClient`, `ClientMode`, `Get`).
-/

namespace Getter

/-! ## Bytes and strings -/

/-- A Go `byte`. -/
abbrev Byte := Fin 256

/-- A Go `string` (and a `[]byte`): a finite sequence of bytes. -/
abbrev GoString := List Byte

/-- The byte of an ASCII character. -/
def ch (c : Char) : Byte := Fin.ofNat c.toNat

/-- The Go string of an ASCII literal. -/
def bs (s : String) : GoString := s.toList.map ch

/-! ## `net/url`: escaping -/

/-- Go `ishex`. -/
def ishex (c : Byte) : Bool :=
  (ch '0' ≤ c && c ≤ ch '9') || (ch 'a' ≤ c && c ≤ ch 'f') || (ch 'A' ≤ c && c ≤ ch 'F')

/-- Go `unhex`. -/
def unhex (c : Byte) : Byte :=
  if ch '0' ≤ c ∧ c ≤ ch '9' then c - ch '0'
  else if ch 'a' ≤ c ∧ c ≤ ch 'f' then c - ch 'a' + 10
  else if ch 'A' ≤ c ∧ c ≤ ch 'F' then c - ch 'A' + 10
  else 0

/-- Go `upperhex`, the digits used by `escape`. -/
def upperhex : GoString := bs "0123456789ABCDEF"

/-- Go `shouldEscape(c, encodeQueryComponent)`: everything but the unreserved
characters of RFC 3986 §2.3 is escaped in a query component. -/
def shouldEscape (c : Byte) : Bool :=
  if (ch 'a' ≤ c && c ≤ ch 'z') || (ch 'A' ≤ c && c ≤ ch 'Z') || (ch '0' ≤ c && c ≤ ch '9') then
    false
  else if c = ch '-' ∨ c = ch '_' ∨ c = ch '.' ∨ c = ch '~' then
    false
  else
    true

/-- One step of the second loop of Go `escape(s, encodeQueryComponent)`: what
is written for the byte `c`. -/
def escapeByte (c : Byte) : GoString :=
  if c = ch ' ' then [ch '+']
  else if shouldEscape c then
    [ch '%', upperhex.getD (c.val >>> 4) 0, upperhex.getD (c.val &&& 15) 0]
  else [c]

/-- Go `url.QueryEscape`. -/
def QueryEscape (s : GoString) : GoString := s.flatMap escapeByte

/-- Go `url.QueryUnescape` (`unescape(s, encodeQueryComponent)`); `none` is the
`EscapeError` returned for a `%` that is not followed by two hex digits. -/
def QueryUnescape : GoString → Option GoString
  | [] => some []
  | c :: rest =>
    if c = ch '%' then
      match rest with
      | h1 :: h2 :: rest2 =>
        if ishex h1 && ishex h2 then
          (QueryUnescape rest2).map (fun t => (unhex h1 <<< 4 ||| unhex h2) :: t)
        else none
      | _ => none
    else if c = ch '+' then (QueryUnescape rest).map (fun t => ch ' ' :: t)
    else (QueryUnescape rest).map (fun t => c :: t)

/-! ## `net/url`: `Values` -/

/-- Go `url.Values`, a `map[string][]string`: the keys are distinct; the order
of the entries is the order in which the keys were first added, and has no
meaning (Go maps are unordered, `Encode` sorts the keys). -/
abbrev Values := List (GoString × List GoString)

/-- Go `v[key]`: the values stored under `key`, `nil` when the key is absent. -/
def Values.index (v : Values) (key : GoString) : List GoString :=
  match v.find? (fun e => e.1 = key) with
  | some e => e.2
  | none => []

/-- Go `Values.Get`: the first value of `key`, or the empty string. -/
def Values.Get (v : Values) (key : GoString) : GoString :=
  match v.index key with
  | [] => []
  | x :: _ => x

/-- Go `Values.Del`: `delete(v, key)`. -/
def Values.Del (v : Values) (key : GoString) : Values :=
  v.filter (fun e => e.1 ≠ key)

/-- Go `m[key] = append(m[key], value)`. -/
def Values.append : Values → GoString → GoString → Values
  | [], key, value => [(key, [value])]
  | e :: m, key, value =>
    if e.1 = key then (e.1, e.2 ++ [value]) :: m else e :: Values.append m key value

/-- Go `strings.Cut(s, sep)` for a one-byte separator: the text before and
after the first `sep` (all of `s` and the empty string when there is none). -/
def cut (sep : Byte) : GoString → GoString × GoString
  | [] => ([], [])
  | c :: s => if c = sep then ([], s) else ((cut sep s).1.cons c, (cut sep s).2)

/-- The body of the loop of Go `parseQuery` for one `&`-separated piece. -/
def parseSegment (m : Values) (key : GoString) : Values :=
  if ch ';' ∈ key then m
  else if key = [] then m
  else
    match QueryUnescape (cut (ch '=') key).1 with
    | none => m
    | some k =>
      match QueryUnescape (cut (ch '=') key).2 with
      | none => m
      | some value => Values.append m k value

/-- Go `url.ParseQuery` (Go 1.17 and later, where a piece with a `;` is
skipped) with its error dropped, as `URL.Query` does: the loop
`for query != ""` cuts `query` at each `&` and runs its body on every piece. -/
def ParseQuery (query : GoString) : Values :=
  (query.splitOn (ch '&')).foldl parseSegment []

/-- Go string comparison `a < b`: bytewise lexicographic. -/
def strLess : GoString → GoString → Bool
  | [], [] => false
  | [], _ :: _ => true
  | _ :: _, [] => false
  | a :: as, b :: bs => a < b || (a == b && strLess as bs)

/-- Go `slices.Sort(keys)`. -/
def sortKeys (keys : List GoString) : List GoString :=
  keys.insertionSort (fun a b => strLess b a = false)

/-- The inner loop of Go `Values.Encode`: the pairs of one key. -/
def encodeKey (buf : GoString) (keyEscaped : GoString) (vs : List GoString) : GoString :=
  vs.foldl
    (fun buf v =>
      (if buf.length > 0 then buf ++ [ch '&'] else buf) ++ keyEscaped ++ [ch '='] ++ QueryEscape v)
    buf

/-- Go `Values.Encode`: the pairs `key=value`, keys sorted, joined by `&`. -/
def Values.Encode (v : Values) : GoString :=
  if v.length = 0 then []
  else (sortKeys (v.map Prod.fst)).foldl (fun buf k => encodeKey buf (QueryEscape k) (v.index k)) []

/-! ## `net/url`: `URL` -/

/-- Go `url.Userinfo`. -/
structure Userinfo where
  username : GoString
  password : GoString
  passwordSet : Bool
  deriving DecidableEq

/-- Go `url.URL`. -/
structure URL where
  Scheme : GoString
  Opaque : GoString
  User : Option Userinfo
  Host : GoString
  Path : GoString
  RawPath : GoString
  ForceQuery : Bool
  RawQuery : GoString
  Fragment : GoString
  RawFragment : GoString
  deriving DecidableEq

/-- Go `URL.Query`. -/
def URL.Query (u : URL) : Values := ParseQuery u.RawQuery


/-! ## `gopkg.in/yaml.v3`: nodes -/

/-- Go `yaml.Kind`. -/
abbrev Kind := Nat

/-- Go `yaml.DocumentNode`. -/
def DocumentNode : Kind := 1
/-- Go `yaml.SequenceNode`. -/
def SequenceNode : Kind := 2
/-- Go `yaml.MappingNode`. -/
def MappingNode : Kind := 4
/-- Go `yaml.ScalarNode`. -/
def ScalarNode : Kind := 8
/-- Go `yaml.AliasNode`. -/
def AliasNode : Kind := 16

/-- Go `yaml.Node`; the fields in the order of the Go struct. -/
inductive Node where
  | mk (Kind : Kind) (Style : Nat) (Tag Value Anchor : GoString) (Alias : Option Node)
      (Content : List Node) (HeadComment LineComment FootComment : GoString)
      (Line Column : Int) : Node

/-- The field `Kind`. -/
def Node.Kind : Node → Kind
  | .mk k _ _ _ _ _ _ _ _ _ _ _ => k

/-- The field `Value`. -/
def Node.Value : Node → GoString
  | .mk _ _ _ v _ _ _ _ _ _ _ _ => v

/-- The field `Content`. -/
def Node.Content : Node → List Node
  | .mk _ _ _ _ _ _ c _ _ _ _ _ => c

/-- A Go composite literal `yaml.Node{Kind: k, Value: v, Content: c}`: the
fields that are not named have their zero value. -/
def Node.lit (k : Getter.Kind) (v : GoString) (c : List Node) : Node :=
  .mk k 0 [] v [] none c [] [] [] 0 0

/-- A Go slice `[]T`, which is `nil` or has elements (possibly none). -/
abbrev Slice (α : Type) := Option (List α)

/-- Go `len(s)`. -/
def Slice.len {α : Type} : Slice α → Nat
  | none => 0
  | some l => l.length

/-! ## The world outside the repository -/

/-- The files, by name. -/
abbrev Files := GoString → Option GoString

/-- A file after `os.OpenFile(name, O_RDWR|O_CREATE[|O_TRUNC], mode)` has
succeeded: it exists, and is empty when it was absent or `O_TRUNC` was given. -/
def Files.opened (fs : Files) (name : GoString) (trunc : Bool) : Files :=
  fun n => if n = name then (if trunc then some [] else some ((fs name).getD [])) else fs n

/-- A file after its content has been replaced. -/
def Files.put (fs : Files) (name : GoString) (data : GoString) : Files :=
  fun n => if n = name then some data else fs n

/-- The calls `GetFile` makes out of the repository, in the order made. -/
inductive Call where
  | httpGetFile (dst : GoString) (u : URL)
  | openFile (name : GoString) (trunc : Bool)
  | readAll (name : GoString)
  | write (name : GoString) (data : GoString)
  | unmarshal (data : GoString)
  | newPath (xpath : GoString)
  | find (n : Node)
  | encode (indent : Nat) (n : Node)

/-- The call writes a file or opens it truncating, as `save` does. -/
def Call.isSave : Call → Bool
  | .openFile _ trunc => trunc
  | .write _ _ => true
  | _ => false

/-- The state `GetFile` runs in: the files, and the calls made so far. -/
structure World where
  files : Files
  log : List Call

/-- The world after one more call. -/
def World.record (w : World) (c : Call) : World :=
  { w with log := w.log ++ [c] }

/-- The collaborators of `ConfigServerGetter`, none of them code of the
repository; `P` is `*yamlpath.Path`.  A Go `error` is its message.

* `httpGetFile` is `HttpGetter.GetFile`: its error (if any) and the files it leaves;
* `openFile`, `readAll`, `write` give the error (if any) of `os.OpenFile`,
  `io.ReadAll` and `File.Write`, the last with the number of bytes written;
* `unmarshal` is `yaml.Unmarshal` into a `yaml.Node`;
* `newPath` is `yamlpath.NewPath`, `find` is `Path.Find`;
* `encode indent n` is what `yaml.NewEncoder(buf)`, `SetIndent(indent)`,
  `Encode(n)` and the deferred `Close` leave in `buf`, or the error of `Encode`. -/
structure Env (P : Type) where
  httpGetFile : Files → GoString → URL → Option GoString × Files
  openFile : Files → GoString → Bool → Option GoString
  readAll : Files → GoString → Option GoString
  write : Files → GoString → GoString → Option (GoString × Nat)
  unmarshal : GoString → Except GoString Node
  newPath : GoString → Except GoString P
  find : P → Node → Except GoString (Slice Node)
  encode : Nat → Node → Except GoString GoString

/-- How a Go call ends: it returns (a value, or an `error` with its message),
or it panics. -/
inductive Outcome (α : Type) where
  | ok (a : α)
  | error (msg : GoString)
  | panic (msg : GoString)

/-- The outcome of a call that returned the Go `error` `e` (`none` for `nil`). -/
def Outcome.ofError : Option GoString → Outcome Unit
  | none => .ok ()
  | some msg => .error msg

/-- Go `%d` of a non-negative `int`. -/
def fmtInt (n : Nat) : GoString := bs (toString n)

/-! ## `get_configserver.go` -/

/-- The constant `yaml` of `GetFile`. -/
def yaml : GoString := bs "yaml"

/-- The four reserved parameters. -/
def reserved : List GoString := [bs "xpath", bs "format", bs "type", bs "newkey"]

/-- The query of the spec's words, "all other parameters are preserved in their
original relative encoding": the `&`-separated pieces of the raw query whose
key is not reserved, as they are written and in their order. -/
def specPreservedQuery (rawQuery : GoString) : GoString :=
  [ch '&'].intercalate
    ((rawQuery.splitOn (ch '&')).filter (fun piece => decide ((cut (ch '=') piece).1 ∉ reserved)))

/-- The locals of `GetFile` after its first block (source lines 40-56): the
four reserved parameters and the URL `u` for the delegate. -/
structure Request where
  xpath : GoString
  format : GoString
  _type : GoString
  newKey : GoString
  u : URL

/-- Lines 40-56 of `GetFile`: take the reserved parameters out of the query
and re-encode what is left into a copy of the URL. -/
def takeParams (u : URL) : Request :=
  let q := u.Query
  if q.length > 0 then
    let xpath := q.Get (bs "xpath")
    let q := q.Del (bs "xpath")
    let format := q.Get (bs "format")
    let q := q.Del (bs "format")
    let _type := q.Get (bs "type")
    let q := q.Del (bs "type")
    let newKey := q.Get (bs "newkey")
    let q := q.Del (bs "newkey")
    { xpath := xpath, format := format, _type := _type, newKey := newKey,
      u := { u with RawQuery := q.Encode } }
  else
    { xpath := [], format := [], _type := [], newKey := [], u := u }

/-- `ConfigServerGetter.newKeyedNodes`. -/
def newKeyedNodes (newKey : GoString) (node : Node) : Node :=
  Node.lit DocumentNode [] [Node.lit MappingNode [] [Node.lit ScalarNode newKey [], node]]

/-- `ConfigServerGetter.readYAML`. -/
def readYAML {P : Type} (E : Env P) (w : World) (dst : GoString) : Outcome GoString × World :=
  let w1 := w.record (.openFile dst false)
  match E.openFile w.files dst false with
  | some err => (.error (bs "cannot open file (" ++ dst ++ bs "): " ++ err), w1)
  | none =>
    let w2 := ({ w1 with files := w1.files.opened dst false }).record (.readAll dst)
    match E.readAll w2.files dst with
    | some err => (.error (bs "cannot read all file (" ++ dst ++ bs "): " ++ err), w2)
    | none => (.ok ((w2.files dst).getD []), w2)

/-- `ConfigServerGetter.save`. -/
def save {P : Type} (E : Env P) (w : World) (dst : GoString) (buf : GoString) :
    Outcome Unit × World :=
  let w1 := w.record (.openFile dst true)
  match E.openFile w.files dst true with
  | some err => (.error (bs "cannot open file (" ++ dst ++ bs "): " ++ err), w1)
  | none =>
    let w2 := ({ w1 with files := w1.files.opened dst true }).record (.write dst buf)
    match E.write w2.files dst buf with
    | some (err, n) =>
      (.error (bs "error saving file " ++ dst ++ bs ": " ++ err),
        { w2 with files := w2.files.put dst (buf.take n) })
    | none => (.ok (), { w2 with files := w2.files.put dst buf })

/-- `ConfigServerGetter.xpathYAML`; the result is the content of the returned
buffer. -/
def xpathYAML {P : Type} (E : Env P) (w : World) (dst : GoString) (y : GoString)
    (xpath resultType newKey : GoString) : Outcome GoString × World :=
  let w1 := w.record (.unmarshal y)
  match E.unmarshal y with
  | .error err => (.error (bs "cannot unmarshal data from file(" ++ dst ++ bs "): " ++ err), w1)
  | .ok n =>
    let w2 := w1.record (.newPath xpath)
    match E.newPath xpath with
    | .error err => (.error (bs "cannot create path: " ++ err), w2)
    | .ok p =>
      let w3 := w2.record (.find n)
      match E.find p n with
      | .error err => (.error (bs "unexpected error: " ++ err), w3)
      | .ok qry =>
        if qry.len > 1 ∧ resultType ≠ bs "list" then
          (.error (bs "unexpected result: more elements than 1: " ++ fmtInt qry.len), w3)
        else
          match qry with
          | none => (.ok [], w3)
          | some [] => (.panic (bs "runtime error: index out of range [0] with length 0"), w3)
          | some (first :: _) =>
            let node := if newKey.length > 0 then newKeyedNodes newKey first else first
            let w4 := w3.record (.encode 2 node)
            match E.encode 2 node with
            | .error err => (.error (bs "cannot marshal node: " ++ err), w4)
            | .ok out => (.ok out, w4)

/-- Lines 67-81 of `GetFile`: the value of `buf` (`none` for `nil`). -/
def extract {P : Type} (E : Env P) (w : World) (dst : GoString) (r : Request)
    (format : GoString) : Outcome (Option GoString) × World :=
  if format = yaml then
    match readYAML E w dst with
    | (.error err, w2) => (.error err, w2)
    | (.panic msg, w2) => (.panic msg, w2)
    | (.ok y, w2) =>
      match xpathYAML E w2 dst y r.xpath r._type r.newKey with
      | (.error err, w3) => (.error err, w3)
      | (.panic msg, w3) => (.panic msg, w3)
      | (.ok buf, w3) => (.ok (some buf), w3)
  else if format.length > 0 then
    (.error (bs "unsupported format " ++ format ++ bs ", yet"), w)
  else (.ok none, w)

/-- `ConfigServerGetter.GetFile`. -/
def GetFile {P : Type} (E : Env P) (w : World) (dst : GoString) (u : URL) :
    Outcome Unit × World :=
  let r := takeParams u
  let w0 := w.record (.httpGetFile dst r.u)
  match E.httpGetFile w.files dst r.u with
  | (some err, fs) => (.error err, { w0 with files := fs })
  | (none, fs) =>
    let w1 : World := { w0 with files := fs }
    let format := if r.format.length = 0 ∧ r.xpath.length > 0 then yaml else r.format
    match extract E w1 dst r format with
    | (.error err, w2) => (.error err, w2)
    | (.panic msg, w2) => (.panic msg, w2)
    | (.ok (some buf), w2) => save E w2 dst buf
    | (.ok none, w2) => (.ok (), w2)

/-- A step of `GetFile` between the download and `save` fails.  The delegate
left the files `fs`, with `y` in `dst`; `xpath`, `format`, `resultType` and
`newKey` are the reserved parameters; the last argument is the error of the
step that fails, each step being reached because the steps before it succeed. -/
inductive FailsBeforeSave {P : Type} (E : Env P) (fs : Files) (dst y : GoString)
    (xpath format resultType newKey : GoString) : GoString → Prop where
  | unsupportedFormat :
      format ≠ [] → format ≠ bs "yaml" →
      FailsBeforeSave E fs dst y xpath format resultType newKey
        (bs "unsupported format " ++ format ++ bs ", yet")
  | openFile (err : GoString) :
      (format = bs "yaml" ∨ (format = [] ∧ xpath ≠ [])) →
      E.openFile fs dst false = some err →
      FailsBeforeSave E fs dst y xpath format resultType newKey
        (bs "cannot open file (" ++ dst ++ bs "): " ++ err)
  | readAll (err : GoString) :
      (format = bs "yaml" ∨ (format = [] ∧ xpath ≠ [])) →
      E.openFile fs dst false = none → E.readAll fs dst = some err →
      FailsBeforeSave E fs dst y xpath format resultType newKey
        (bs "cannot read all file (" ++ dst ++ bs "): " ++ err)
  | unmarshal (err : GoString) :
      (format = bs "yaml" ∨ (format = [] ∧ xpath ≠ [])) →
      E.openFile fs dst false = none → E.readAll fs dst = none →
      E.unmarshal y = .error err →
      FailsBeforeSave E fs dst y xpath format resultType newKey
        (bs "cannot unmarshal data from file(" ++ dst ++ bs "): " ++ err)
  | newPath (n : Node) (err : GoString) :
      (format = bs "yaml" ∨ (format = [] ∧ xpath ≠ [])) →
      E.openFile fs dst false = none → E.readAll fs dst = none →
      E.unmarshal y = .ok n → E.newPath xpath = .error err →
      FailsBeforeSave E fs dst y xpath format resultType newKey
        (bs "cannot create path: " ++ err)
  | find (n : Node) (p : P) (err : GoString) :
      (format = bs "yaml" ∨ (format = [] ∧ xpath ≠ [])) →
      E.openFile fs dst false = none → E.readAll fs dst = none →
      E.unmarshal y = .ok n → E.newPath xpath = .ok p → E.find p n = .error err →
      FailsBeforeSave E fs dst y xpath format resultType newKey
        (bs "unexpected error: " ++ err)
  | arity (n : Node) (p : P) (qry : Slice Node) :
      (format = bs "yaml" ∨ (format = [] ∧ xpath ≠ [])) →
      E.openFile fs dst false = none → E.readAll fs dst = none →
      E.unmarshal y = .ok n → E.newPath xpath = .ok p → E.find p n = .ok qry →
      qry.len > 1 → resultType ≠ bs "list" →
      FailsBeforeSave E fs dst y xpath format resultType newKey
        (bs "unexpected result: more elements than 1: " ++ fmtInt qry.len)
  | encode (n : Node) (p : P) (first : Node) (rest : List Node) (err : GoString) :
      (format = bs "yaml" ∨ (format = [] ∧ xpath ≠ [])) →
      E.openFile fs dst false = none → E.readAll fs dst = none →
      E.unmarshal y = .ok n → E.newPath xpath = .ok p →
      E.find p n = .ok (some (first :: rest)) →
      (rest = [] ∨ resultType = bs "list") →
      E.encode 2 (if newKey.length > 0 then newKeyedNodes newKey first else first) = .error err →
      FailsBeforeSave E fs dst y xpath format resultType newKey
        (bs "cannot marshal node: " ++ err)

/-! ## A small instance of the collaborators

The test server of the repository serves one YAML document at `/yaml`.  The
instance below stands for the collaborators on that document: the delegate
downloads it, the file system never fails, the decoder knows that document,
paths are dotted child names with `*` for every child, and the encoder writes
block mappings of plain scalars.  It is what the general theorems are
instantiated with; nothing is proved from it about the real libraries. -/

namespace Example

/-- The document served at `/yaml` (`TestConfigServerGetter_yaml`). -/
def document : GoString :=
  bs "yaml:\n  key1: value1\n  key2: value2\n  key3:\n    subkey3_1: subvalue3_1\n    subkey3_2: subvalue3_2\n"

/-- A plain scalar. -/
def scalar (s : String) : Node := Node.lit ScalarNode (bs s) []

/-- The mapping under `key3`. -/
def key3 : Node :=
  Node.lit MappingNode []
    [scalar "subkey3_1", scalar "subvalue3_1", scalar "subkey3_2", scalar "subvalue3_2"]

/-- The mapping under `yaml`. -/
def inner : Node :=
  Node.lit MappingNode []
    [scalar "key1", scalar "value1", scalar "key2", scalar "value2", scalar "key3", key3]

/-- The tree of `document`. -/
def tree : Node :=
  Node.lit DocumentNode [] [Node.lit MappingNode [] [scalar "yaml", inner]]

/-- The delegate: `/yaml` is downloaded into `dst`, everything else is an error. -/
def httpGetFile (fs : Files) (dst : GoString) (u : URL) : Option GoString × Files :=
  if u.Path = bs "/yaml" then (none, fs.put dst document)
  else (some (bs "bad response code: 404"), fs)

/-- The decoder, for the one document. -/
def unmarshal (y : GoString) : Except GoString Node :=
  if y = document then .ok tree else .error (bs "yaml: not the document of the example")

/-- A path: the child names, `*` for all children. -/
def newPath (xpath : GoString) : Except GoString (List GoString) :=
  if xpath = [] then .ok []
  else if ch '[' ∈ xpath then .error (bs "invalid path syntax") else .ok (xpath.splitOn (ch '.'))

/-- The values of a mapping (given as its `Content`) selected by a child name. -/
def children (name : GoString) : List Node → List Node
  | k :: v :: rest =>
    if name = bs "*" ∨ k.Value = name then v :: children name rest else children name rest
  | _ => []

/-- One step of a path from a node: a document steps from its root. -/
def step (name : GoString) (n : Node) : List Node :=
  if n.Kind = DocumentNode then
    match n.Content with
    | [m] => children name m.Content
    | _ => []
  else if n.Kind = MappingNode then children name n.Content
  else []

/-- The nodes a path selects; `nil` when there are none. -/
def find (p : List GoString) (n : Node) : Except GoString (Slice Node) :=
  match p.foldl (fun ns name => ns.flatMap (step name)) [n] with
  | [] => .ok none
  | ns => .ok (some ns)

mutual
/-- What follows the `:` of a key: a scalar on the same line, a mapping on the
lines below, at a margin. -/
def value (indent margin : Nat) : Node → GoString
  | .mk k _ _ v _ _ c _ _ _ _ _ =>
    if k = ScalarNode then bs " " ++ v ++ bs "\n" else bs "\n" ++ lines indent margin c
/-- The lines of a mapping (given as its `Content`) at a margin. -/
def lines (indent margin : Nat) : List Node → GoString
  | [] => []
  | [_] => []
  | k :: v :: rest =>
    List.replicate margin (ch ' ') ++ k.Value ++ bs ":" ++ value indent (margin + indent) v ++
      lines indent margin rest
end

/-- The encoder. -/
def encode (indent : Nat) (n : Node) : Except GoString GoString :=
  if n.Kind = ScalarNode then .ok (n.Value ++ bs "\n")
  else if n.Kind = MappingNode then .ok (lines indent 0 n.Content)
  else if n.Kind = DocumentNode then
    match n.Content with
    | [m] =>
      if m.Kind = ScalarNode then .ok (m.Value ++ bs "\n")
      else if m.Kind = MappingNode then .ok (lines indent 0 m.Content)
      else .error (bs "yaml: not encoded by the example")
    | _ => .error (bs "yaml: expected a single document in the stream")
  else .error (bs "yaml: not encoded by the example")

/-- The collaborators of the example. -/
def env : Env (List GoString) where
  httpGetFile := httpGetFile
  openFile := fun _ _ _ => none
  readAll := fun _ _ => none
  write := fun _ _ _ => none
  unmarshal := unmarshal
  newPath := newPath
  find := find
  encode := encode

/-- No file, no call yet. -/
def start : World := { files := fun _ => none, log := [] }

/-- The URL `http://localhost/yaml?rawQuery`. -/
def url (rawQuery : String) : URL :=
  { Scheme := bs "http", Opaque := [], User := none, Host := bs "localhost", Path := bs "/yaml",
    RawPath := [], ForceQuery := false, RawQuery := bs rawQuery, Fragment := [],
    RawFragment := [] }

/-- The destination file of the examples. -/
def dst : GoString := bs "dst"

/-- The files after the download of `document` into `dst`. -/
def downloaded : Files := start.files.put dst document

/-- The content of `dst` after `GetFile` on `url rawQuery`. -/
def fetched (rawQuery : String) : Option GoString :=
  (GetFile env start dst (url rawQuery)).2.files dst

/-- Whether `GetFile` on `url rawQuery` returned `nil`. -/
def succeeded (rawQuery : String) : Bool :=
  match (GetFile env start dst (url rawQuery)).1 with
  | .ok _ => true
  | _ => false

/-- The message of the error `GetFile` on `url rawQuery` returned, if any. -/
def failure (rawQuery : String) : Option GoString :=
  match (GetFile env start dst (url rawQuery)).1 with
  | .error msg => some msg
  | _ => none

end Example

end Getter

namespace Getter

/-! ## The reserved parameters -/

theorem Values.index_cons (e : GoString × List GoString) (m : Values) (key : GoString) :
    Values.index (e :: m) key = if e.1 = key then e.2 else Values.index m key := by
  unfold Values.index
  by_cases h : e.1 = key <;> simp [List.find?_cons, h]

theorem Values.Del_cons (e : GoString × List GoString) (m : Values) (k : GoString) :
    Values.Del (e :: m) k = if e.1 = k then Values.Del m k else e :: Values.Del m k := by
  unfold Values.Del
  by_cases h : e.1 = k <;> simp [List.filter_cons, h]

theorem Values.index_Del_of_ne (v : Values) {k key : GoString} (h : key ≠ k) :
    (v.Del k).index key = v.index key := by
  induction v with
  | nil => rfl
  | cons e m ih =>
    rw [Values.Del_cons, Values.index_cons]
    by_cases hk : e.1 = k
    · have hne : ¬ e.1 = key := fun h2 => h (h2.symm.trans hk)
      rw [if_pos hk, if_neg hne, ih]
    · rw [if_neg hk, Values.index_cons, ih]

theorem Values.index_Del_self (v : Values) (k : GoString) : (v.Del k).index k = [] := by
  induction v with
  | nil => rfl
  | cons e m ih =>
    rw [Values.Del_cons]
    by_cases hk : e.1 = k
    · rw [if_pos hk, ih]
    · rw [if_neg hk, Values.index_cons, if_neg hk, ih]

theorem Values.Get_Del_of_ne (v : Values) {k key : GoString} (h : key ≠ k) :
    (v.Del k).Get key = v.Get key := by
  unfold Values.Get
  rw [Values.index_Del_of_ne v h]

theorem Values.Get_of_length_eq_zero {v : Values} (h : ¬ v.length > 0) (key : GoString) :
    v.Get key = [] := by
  have : v = [] := List.length_eq_zero.mp (by omega)
  subst this
  rfl

theorem takeParams_xpath (u : URL) : (takeParams u).xpath = u.Query.Get (bs "xpath") := by
  unfold takeParams
  by_cases h : u.Query.length > 0
  · simp [h]
  · simp [h, Values.Get_of_length_eq_zero h]

theorem takeParams_format (u : URL) : (takeParams u).format = u.Query.Get (bs "format") := by
  unfold takeParams
  by_cases h : u.Query.length > 0
  · simp only [h, if_true]
    exact Values.Get_Del_of_ne _ (by decide)
  · simp [h, Values.Get_of_length_eq_zero h]

theorem takeParams_type (u : URL) : (takeParams u)._type = u.Query.Get (bs "type") := by
  unfold takeParams
  by_cases h : u.Query.length > 0
  · simp only [h, if_true]
    rw [Values.Get_Del_of_ne _ (by decide), Values.Get_Del_of_ne _ (by decide)]
  · simp [h, Values.Get_of_length_eq_zero h]

theorem takeParams_newKey (u : URL) : (takeParams u).newKey = u.Query.Get (bs "newkey") := by
  unfold takeParams
  by_cases h : u.Query.length > 0
  · simp only [h, if_true]
    rw [Values.Get_Del_of_ne _ (by decide), Values.Get_Del_of_ne _ (by decide),
      Values.Get_Del_of_ne _ (by decide)]
  · simp [h, Values.Get_of_length_eq_zero h]

/-! ## The steps of `GetFile` -/

theorem Files.opened_of_some {fs : Files} {dst y : GoString} (h : fs dst = some y) :
    fs.opened dst false = fs := by
  funext n
  unfold Files.opened
  by_cases hn : n = dst
  · subst hn; simp [h]
  · simp [hn]

theorem Files.put_same (fs : Files) (dst data : GoString) : fs.put dst data dst = some data := by
  simp [Files.put]

/-- The format `GetFile` works with is YAML when `format=yaml` is given, and
when no format is given with a non-empty `xpath`. -/
theorem effective_yaml {xpath format : GoString}
    (h : format = bs "yaml" ∨ (format = [] ∧ xpath ≠ [])) :
    (if format.length = 0 ∧ xpath.length > 0 then yaml else format) = yaml := by
  rcases h with h | ⟨h1, h2⟩
  · subst h; rfl
  · subst h1
    have : xpath.length > 0 := List.length_pos.mpr h2
    simp [this]

theorem readYAML_ok {P : Type} (E : Env P) (w : World) (dst y : GoString)
    (hdl : w.files dst = some y)
    (hopen : E.openFile w.files dst false = none) (hread : E.readAll w.files dst = none) :
    readYAML E w dst = (.ok y, { files := w.files, log := w.log ++ [.openFile dst false, .readAll dst] }) := by
  simp [readYAML, World.record, hopen, Files.opened_of_some hdl, hread, hdl]

theorem Files.put_opened (fs : Files) (dst data : GoString) (trunc : Bool) :
    (fs.opened dst trunc).put dst data = fs.put dst data := by
  funext n
  unfold Files.put Files.opened
  by_cases hn : n = dst <;> simp [hn]

/-- The node `xpathYAML` encodes for the first node of the query result. -/
theorem xpathYAML_first {P : Type} (E : Env P) (w : World) (dst y xpath resultType newKey : GoString)
    (n : Node) (p : P) (first : Node) (rest : List Node)
    (hparse : E.unmarshal y = .ok n) (hpath : E.newPath xpath = .ok p)
    (hfind : E.find p n = .ok (some (first :: rest)))
    (harity : rest = [] ∨ resultType = bs "list") :
    xpathYAML E w dst y xpath resultType newKey =
      ((match E.encode 2 (if newKey.length > 0 then newKeyedNodes newKey first else first) with
        | .error err => .error (bs "cannot marshal node: " ++ err)
        | .ok out => .ok out),
        { files := w.files,
          log := w.log ++ [.unmarshal y, .newPath xpath, .find n,
            .encode 2 (if newKey.length > 0 then newKeyedNodes newKey first else first)] }) := by
  have hA : ¬ (Slice.len (some (first :: rest)) > 1 ∧ resultType ≠ bs "list") := by
    rcases harity with h | h
    · subst h; simp [Slice.len]
    · simp [h]
  simp only [xpathYAML, hparse, hpath, hfind, World.record, if_neg hA]
  cases E.encode 2 (if newKey.length > 0 then newKeyedNodes newKey first else first) <;> simp

/-- A result that is empty without being `nil` passes the test `qry == nil`
and `qry[0]` panics; `Path.Find` gives `nil` when nothing matches. -/
theorem xpathYAML_empty_not_nil {P : Type} (E : Env P) (w : World)
    (dst y xpath resultType newKey : GoString) (n : Node) (p : P)
    (hparse : E.unmarshal y = .ok n) (hpath : E.newPath xpath = .ok p)
    (hfind : E.find p n = .ok (some [])) :
    (xpathYAML E w dst y xpath resultType newKey).1 =
      .panic (bs "runtime error: index out of range [0] with length 0") := by
  simp [xpathYAML, hparse, hpath, hfind, World.record, Slice.len]

/-- The whole of `GetFile` when every step succeeds and the query result has
a first node. -/
theorem GetFile_first {P : Type} (E : Env P) (w : World) (dst : GoString) (u : URL)
    (fs : Files) (y : GoString) (n : Node) (p : P) (first : Node) (rest : List Node)
    (out : GoString)
    (hformat : u.Query.Get (bs "format") = bs "yaml" ∨
      (u.Query.Get (bs "format") = [] ∧ u.Query.Get (bs "xpath") ≠ []))
    (hfetch : E.httpGetFile w.files dst (takeParams u).u = (none, fs))
    (hdl : fs dst = some y)
    (hopen : E.openFile fs dst false = none) (hread : E.readAll fs dst = none)
    (hparse : E.unmarshal y = .ok n)
    (hpath : E.newPath (u.Query.Get (bs "xpath")) = .ok p)
    (hfind : E.find p n = .ok (some (first :: rest)))
    (harity : rest = [] ∨ u.Query.Get (bs "type") = bs "list")
    (henc : E.encode 2 (if (u.Query.Get (bs "newkey")).length > 0
      then newKeyedNodes (u.Query.Get (bs "newkey")) first else first) = .ok out)
    (hopenw : E.openFile fs dst true = none)
    (hwrite : E.write (fs.opened dst true) dst out = none) :
    GetFile E w dst u =
      (.ok (),
        { files := fs.put dst out,
          log := w.log ++ [.httpGetFile dst (takeParams u).u, .openFile dst false, .readAll dst,
            .unmarshal y, .newPath (u.Query.Get (bs "xpath")), .find n,
            .encode 2 (if (u.Query.Get (bs "newkey")).length > 0
              then newKeyedNodes (u.Query.Get (bs "newkey")) first else first),
            .openFile dst true, .write dst out] }) := by
  rw [← takeParams_format, ← takeParams_xpath] at hformat
  rw [← takeParams_xpath] at hpath ⊢
  rw [← takeParams_type] at harity
  rw [← takeParams_newKey] at henc ⊢
  have hx := xpathYAML_first E
    { files := fs, log := w.log ++ [.httpGetFile dst (takeParams u).u, .openFile dst false, .readAll dst] }
    dst y _ _ (takeParams u).newKey n p first rest hparse hpath hfind harity
  rw [henc] at hx
  simp only [GetFile, hfetch, World.record, effective_yaml hformat, extract, if_true]
  rw [readYAML_ok E _ dst y hdl hopen hread]
  simp only [List.append_assoc, List.singleton_append, List.cons_append, List.nil_append] at hx ⊢
  rw [hx]
  simp [save, World.record, hopenw, hwrite, Files.put_opened]

/-- `GetFile` after a successful download when the format is YAML: read, query, save. -/
theorem GetFile_yaml {P : Type} (E : Env P) (w : World) (dst : GoString) (u : URL) (fs : Files)
    (hfetch : E.httpGetFile w.files dst (takeParams u).u = (none, fs))
    (hformat : (takeParams u).format = bs "yaml" ∨
      ((takeParams u).format = [] ∧ (takeParams u).xpath ≠ [])) :
    GetFile E w dst u =
      match readYAML E { files := fs, log := w.log ++ [.httpGetFile dst (takeParams u).u] } dst with
      | (.error err, w2) => (.error err, w2)
      | (.panic msg, w2) => (.panic msg, w2)
      | (.ok y, w2) =>
        match xpathYAML E w2 dst y (takeParams u).xpath (takeParams u)._type
          (takeParams u).newKey with
        | (.error err, w3) => (.error err, w3)
        | (.panic msg, w3) => (.panic msg, w3)
        | (.ok buf, w3) => save E w3 dst buf := by
  simp only [GetFile, hfetch, World.record, effective_yaml hformat, extract, if_true]
  rcases readYAML E { files := fs, log := w.log ++ [.httpGetFile dst (takeParams u).u] } dst
    with ⟨_ | _ | _, w2⟩
  · simp only
    rcases xpathYAML E w2 dst _ (takeParams u).xpath (takeParams u)._type (takeParams u).newKey
      with ⟨_ | _ | _, w3⟩ <;> rfl
  · rfl
  · rfl

/-! ## `net/url`: what is encoded is parsed back -/

set_option maxRecDepth 100000 in
theorem escapeByte_free (c : Byte) :
    ch '&' ∉ escapeByte c ∧ ch '=' ∉ escapeByte c ∧ ch ';' ∉ escapeByte c := by
  revert c; decide

set_option maxRecDepth 100000 in
theorem escapeByte_hex (c : Byte) :
    (ishex (upperhex.getD (c.val >>> 4) 0) && ishex (upperhex.getD (c.val &&& 15) 0)) = true ∧
      (unhex (upperhex.getD (c.val >>> 4) 0) <<< 4 |||
        unhex (upperhex.getD (c.val &&& 15) 0)) = c := by
  revert c; decide

set_option maxRecDepth 100000 in
theorem shouldEscape_false (c : Byte) :
    shouldEscape c = false → c ≠ ch '%' ∧ c ≠ ch '+' := by
  revert c; decide

theorem QueryUnescape_cons_plain (c : Byte) (rest : GoString) (h1 : c ≠ ch '%')
    (h2 : c ≠ ch '+') :
    QueryUnescape (c :: rest) = (QueryUnescape rest).map (fun t => c :: t) := by
  rcases rest with _ | ⟨a, _ | ⟨b, r⟩⟩ <;> simp [QueryUnescape, h1, h2]

theorem QueryUnescape_cons_plus (rest : GoString) :
    QueryUnescape (ch '+' :: rest) = (QueryUnescape rest).map (fun t => ch ' ' :: t) := by
  have h1 : ¬ ch '+' = ch '%' := by decide
  rcases rest with _ | ⟨a, _ | ⟨b, r⟩⟩ <;> simp [QueryUnescape, h1]

theorem QueryUnescape_cons_percent (h1 h2 : Byte) (rest : GoString)
    (h : (ishex h1 && ishex h2) = true) :
    QueryUnescape (ch '%' :: h1 :: h2 :: rest) =
      (QueryUnescape rest).map (fun t => (unhex h1 <<< 4 ||| unhex h2) :: t) := by
  rw [QueryUnescape, if_pos rfl]
  simp only [h, if_true]

theorem QueryUnescape_escapeByte_append (c : Byte) (rest : GoString) :
    QueryUnescape (escapeByte c ++ rest) = (QueryUnescape rest).map (fun t => c :: t) := by
  unfold escapeByte
  by_cases hsp : c = ch ' '
  · subst hsp
    rw [if_pos rfl]
    exact QueryUnescape_cons_plus rest
  · rw [if_neg hsp]
    by_cases hesc : shouldEscape c = true
    · rw [if_pos hesc]
      have h := escapeByte_hex c
      have h2 := QueryUnescape_cons_percent _ _ rest h.1
      rw [h.2] at h2
      exact h2
    · have hf : shouldEscape c = false := by simpa using hesc
      have h := shouldEscape_false c hf
      rw [if_neg hesc]
      exact QueryUnescape_cons_plain c rest h.1 h.2

theorem QueryUnescape_QueryEscape (s : GoString) : QueryUnescape (QueryEscape s) = some s := by
  induction s with
  | nil => rfl
  | cons c s ih =>
    have : QueryEscape (c :: s) = escapeByte c ++ QueryEscape s := by
      simp [QueryEscape, List.flatMap_cons]
    rw [this, QueryUnescape_escapeByte_append, ih]
    rfl

theorem QueryEscape_free (s : GoString) :
    ch '&' ∉ QueryEscape s ∧ ch '=' ∉ QueryEscape s ∧ ch ';' ∉ QueryEscape s := by
  unfold QueryEscape
  refine ⟨?_, ?_, ?_⟩ <;>
  · intro h
    obtain ⟨c, _, hc⟩ := List.mem_flatMap.mp h
    have := escapeByte_free c
    tauto

theorem cut_append (sep : Byte) (a b : GoString) (h : sep ∉ a) :
    cut sep (a ++ sep :: b) = (a, b) := by
  induction a with
  | nil => simp [cut]
  | cons c a ih =>
    have hc : ¬ c = sep := fun e => h (by simp [e])
    have ha : sep ∉ a := fun e => h (by simp [e])
    simp [cut, hc, ih ha]

/-- The body of the loop of `parseQuery` on an encoded pair appends the pair. -/
theorem parseSegment_pair (m : Values) (k x : GoString) :
    parseSegment m (QueryEscape k ++ ch '=' :: QueryEscape x) = m.append k x := by
  have hk := QueryEscape_free k
  have hx := QueryEscape_free x
  have h1 : ch ';' ∉ QueryEscape k ++ ch '=' :: QueryEscape x := by
    have : ¬ ch ';' = ch '=' := by decide
    simp [hk.2.2, hx.2.2, this]
  have h2 : ¬ (QueryEscape k ++ ch '=' :: QueryEscape x) = [] := by simp
  unfold parseSegment
  rw [if_neg h1, if_neg h2, cut_append _ _ _ hk.2.1]
  simp [QueryUnescape_QueryEscape]

theorem encodeKey_eq (buf ke : GoString) (vs : List GoString) :
    encodeKey buf ke vs =
      (vs.map (fun x => ke ++ ch '=' :: QueryEscape x)).foldl
        (fun buf seg => (if buf.length > 0 then buf ++ [ch '&'] else buf) ++ seg) buf := by
  unfold encodeKey
  rw [List.foldl_map]
  congr 1
  funext b x
  simp [List.append_assoc]

theorem foldl_encodeKey (v : Values) (keys : List GoString) (buf : GoString) :
    keys.foldl (fun buf k => encodeKey buf (QueryEscape k) (v.index k)) buf =
      (keys.flatMap (fun k =>
        (v.index k).map (fun x => QueryEscape k ++ ch '=' :: QueryEscape x))).foldl
        (fun buf seg => (if buf.length > 0 then buf ++ [ch '&'] else buf) ++ seg) buf := by
  induction keys generalizing buf with
  | nil => rfl
  | cons k keys ih =>
    rw [List.foldl_cons, ih, List.flatMap_cons, List.foldl_append, encodeKey_eq]

theorem foldl_join_of_ne_nil (segs : List GoString) (buf : GoString) (h : buf ≠ []) :
    segs.foldl (fun buf seg => (if buf.length > 0 then buf ++ [ch '&'] else buf) ++ seg) buf =
      buf ++ segs.flatMap (fun s => ch '&' :: s) := by
  induction segs generalizing buf with
  | nil => simp
  | cons s segs ih =>
    have hpos : buf.length > 0 := List.length_pos.mpr h
    rw [List.foldl_cons, if_pos hpos, ih _ (by simp), List.flatMap_cons]
    simp [List.append_assoc]

theorem splitOn_join (s : GoString) (segs : List GoString) (hs : ch '&' ∉ s)
    (hsegs : ∀ t ∈ segs, ch '&' ∉ t) :
    (s ++ segs.flatMap (fun t => ch '&' :: t)).splitOn (ch '&') = s :: segs := by
  induction segs generalizing s with
  | nil =>
    simp only [List.flatMap_nil, List.append_nil]
    exact List.splitOnP_eq_single _ _ (fun x hx hb => hs (by rwa [eq_of_beq hb] at hx))
  | cons t ts ih =>
    rw [List.flatMap_cons, List.cons_append]
    have h1 := List.splitOnP_first (fun x => x == ch '&') s
      (fun x hx hb => hs (by rwa [eq_of_beq hb] at hx)) (ch '&') (by simp)
      (t ++ ts.flatMap (fun t => ch '&' :: t))
    have h2 := ih t (hsegs t (by simp)) (fun r hr => hsegs r (by simp [hr]))
    unfold List.splitOn at h2 ⊢
    rw [h1, h2]

theorem ParseQuery_foldl_join (segs : List GoString) (hne : ∀ t ∈ segs, t ≠ [])
    (hfree : ∀ t ∈ segs, ch '&' ∉ t) :
    ParseQuery
      (segs.foldl (fun buf seg => (if buf.length > 0 then buf ++ [ch '&'] else buf) ++ seg) []) =
      segs.foldl parseSegment [] := by
  cases segs with
  | nil => rfl
  | cons s rest =>
    have hs : s ≠ [] := hne s (by simp)
    rw [List.foldl_cons]
    simp only [List.length_nil, gt_iff_lt, lt_self_iff_false, if_false, List.nil_append]
    rw [foldl_join_of_ne_nil rest s hs]
    unfold ParseQuery
    rw [splitOn_join s rest (hfree s (by simp)) (fun r hr => hfree r (by simp [hr]))]

theorem foldl_parseSegment_pairs (ps : List (GoString × GoString)) (m : Values) :
    (ps.map (fun p => QueryEscape p.1 ++ ch '=' :: QueryEscape p.2)).foldl parseSegment m =
      ps.foldl (fun m p => Values.append m p.1 p.2) m := by
  induction ps generalizing m with
  | nil => rfl
  | cons p ps ih => rw [List.map_cons, List.foldl_cons, parseSegment_pair, ih, List.foldl_cons]

/-- Parsing what `Encode` wrote adds the pairs of the map one by one, by key in
sorted order. -/
theorem ParseQuery_Encode (v : Values) :
    ParseQuery v.Encode =
      ((sortKeys (v.map Prod.fst)).flatMap (fun k => (v.index k).map (fun x => (k, x)))).foldl
        (fun m p => Values.append m p.1 p.2) [] := by
  unfold Values.Encode
  by_cases hv : v.length = 0
  · have : v = [] := List.length_eq_zero.mp hv
    subst this
    rfl
  · rw [if_neg hv, foldl_encodeKey, ← foldl_parseSegment_pairs, List.map_flatMap]
    simp only [List.map_map, Function.comp_def]
    apply ParseQuery_foldl_join
    · intro t ht
      obtain ⟨k, _, hk⟩ := List.mem_flatMap.mp ht
      obtain ⟨x, _, hx⟩ := List.mem_map.mp hk
      subst hx
      simp
    · intro t ht
      obtain ⟨k, _, hk⟩ := List.mem_flatMap.mp ht
      obtain ⟨x, _, hx⟩ := List.mem_map.mp hk
      subst hx
      have h1 := (QueryEscape_free k).1
      have h2 := (QueryEscape_free x).1
      have h3 : ¬ ch '&' = ch '=' := by decide
      simp [h1, h2, h3]

theorem Values.index_append (m : Values) (k x key : GoString) :
    (m.append k x).index key = if k = key then m.index key ++ [x] else m.index key := by
  induction m with
  | nil =>
    by_cases h : k = key <;> simp [Values.append, Values.index_cons, h, Values.index]
  | cons e m ih =>
    unfold Values.append
    by_cases he : e.1 = k
    · rw [if_pos he, Values.index_cons, Values.index_cons]
      by_cases hk : k = key
      · simp [hk, he ▸ hk]
      · have : ¬ e.1 = key := fun h => hk (he ▸ h)
        simp [hk, this]
    · rw [if_neg he, Values.index_cons, Values.index_cons, ih]
      by_cases hk : k = key
      · have : ¬ e.1 = key := fun h => he (h.trans hk.symm)
        simp [hk, this]
      · simp [hk]

theorem Values.index_foldl_append (ps : List (GoString × GoString)) (m : Values)
    (key : GoString) :
    (ps.foldl (fun m p => Values.append m p.1 p.2) m).index key =
      m.index key ++ (ps.filter (fun p => p.1 = key)).map Prod.snd := by
  induction ps generalizing m with
  | nil => simp
  | cons p ps ih =>
    rw [List.foldl_cons, ih, Values.index_append, List.filter_cons]
    by_cases h : p.1 = key <;> simp [h]

theorem filter_pairs (f : GoString → List GoString) (ks : List GoString) (hnd : ks.Nodup)
    (key : GoString) :
    ((ks.flatMap (fun k => (f k).map (fun x => (k, x)))).filter (fun p => p.1 = key)).map
      Prod.snd = if key ∈ ks then f key else [] := by
  induction ks with
  | nil => simp
  | cons k ks ih =>
    have hnd2 := List.nodup_cons.mp hnd
    rw [List.flatMap_cons, List.filter_append, List.map_append, ih hnd2.2]
    by_cases h : k = key
    · subst h
      simp [List.filter_map, Function.comp_def, hnd2.1]
    · have h2 : ¬ key = k := fun e => h e.symm
      simp [List.filter_map, Function.comp_def, h, h2]

theorem Values.index_of_not_mem (v : Values) (key : GoString) (h : key ∉ v.map Prod.fst) :
    v.index key = [] := by
  induction v with
  | nil => rfl
  | cons e m ih =>
    rw [Values.index_cons]
    have h1 : ¬ e.1 = key := fun he => h (by simp [he])
    have h2 : key ∉ m.map Prod.fst := fun hm => h (by simp at hm ⊢; exact Or.inr hm)
    rw [if_neg h1, ih h2]

/-- What is parsed back from `Encode` has, under every key, the values of the map. -/
theorem Values.index_ParseQuery_Encode (v : Values) (hnd : (v.map Prod.fst).Nodup)
    (key : GoString) :
    (ParseQuery v.Encode).index key = v.index key := by
  have hperm : (sortKeys (v.map Prod.fst)).Perm (v.map Prod.fst) :=
    List.perm_insertionSort _ _
  rw [ParseQuery_Encode, Values.index_foldl_append,
    filter_pairs _ _ (hperm.nodup_iff.mpr hnd)]
  by_cases h : key ∈ v.map Prod.fst
  · rw [if_pos (hperm.mem_iff.mpr h)]
    rfl
  · rw [if_neg (fun h2 => h (hperm.mem_iff.mp h2)), Values.index_of_not_mem v key h]
    rfl

/-! ## The query `URL.Query` returns -/

theorem Values.keys_append (m : Values) (k x : GoString) :
    (m.append k x).map Prod.fst =
      if k ∈ m.map Prod.fst then m.map Prod.fst else m.map Prod.fst ++ [k] := by
  induction m with
  | nil => simp [Values.append]
  | cons e m ih =>
    unfold Values.append
    by_cases he : e.1 = k
    · simp [he]
    · have hne : ¬ k = e.1 := fun h => he h.symm
      rw [if_neg he, List.map_cons, ih]
      by_cases hk : k ∈ m.map Prod.fst
      · rw [if_pos hk, if_pos (by simp only [List.map_cons, List.mem_cons]; exact Or.inr hk)]
        rfl
      · rw [if_neg hk, if_neg (by
          simp only [List.map_cons, List.mem_cons, not_or]; exact ⟨hne, hk⟩)]
        rfl

theorem Values.nodup_append (m : Values) (k x : GoString) (h : (m.map Prod.fst).Nodup) :
    ((m.append k x).map Prod.fst).Nodup := by
  rw [Values.keys_append]
  by_cases hk : k ∈ m.map Prod.fst
  · rw [if_pos hk]; exact h
  · rw [if_neg hk]
    exact List.Nodup.append h (List.nodup_singleton k) (by
      intro a ha hb
      rw [List.mem_singleton] at hb
      exact hk (hb ▸ ha))

theorem Values.values_append (m : Values) (k x : GoString) (h : ∀ e ∈ m, e.2 ≠ []) :
    ∀ e ∈ m.append k x, e.2 ≠ [] := by
  induction m with
  | nil => simp [Values.append]
  | cons e0 m ih =>
    unfold Values.append
    by_cases he : e0.1 = k
    · rw [if_pos he]
      intro e hmem
      rcases List.mem_cons.mp hmem with h1 | h1
      · subst h1; simp
      · exact h e (List.mem_cons_of_mem _ h1)
    · rw [if_neg he]
      intro e hmem
      rcases List.mem_cons.mp hmem with h1 | h1
      · subst h1; exact h _ (List.mem_cons_self _ _)
      · exact ih (fun e he => h e (List.mem_cons_of_mem _ he)) e h1

theorem parseSegment_cases (m : Values) (seg : GoString) :
    parseSegment m seg = m ∨ ∃ k x, parseSegment m seg = m.append k x := by
  unfold parseSegment
  split
  · exact Or.inl rfl
  · split
    · exact Or.inl rfl
    · split
      · exact Or.inl rfl
      · split
        · exact Or.inl rfl
        · exact Or.inr ⟨_, _, rfl⟩

/-- The keys of a parsed query are distinct and each has a value. -/
theorem foldl_parseSegment_wf (segs : List GoString) (m : Values)
    (h : (m.map Prod.fst).Nodup ∧ ∀ e ∈ m, e.2 ≠ []) :
    ((segs.foldl parseSegment m).map Prod.fst).Nodup ∧
      ∀ e ∈ segs.foldl parseSegment m, e.2 ≠ [] := by
  induction segs generalizing m with
  | nil => exact h
  | cons s segs ih =>
    rw [List.foldl_cons]
    apply ih
    rcases parseSegment_cases m s with h1 | ⟨k, x, h1⟩
    · rw [h1]; exact h
    · rw [h1]; exact ⟨Values.nodup_append m k x h.1, Values.values_append m k x h.2⟩

theorem ParseQuery_wf (query : GoString) :
    ((ParseQuery query).map Prod.fst).Nodup ∧ ∀ e ∈ ParseQuery query, e.2 ≠ [] :=
  foldl_parseSegment_wf _ [] ⟨List.nodup_nil, by simp⟩

theorem Values.nodup_Del (v : Values) (k : GoString) (h : (v.map Prod.fst).Nodup) :
    ((v.Del k).map Prod.fst).Nodup :=
  List.Nodup.sublist (List.Sublist.map _ (List.filter_sublist _)) h

theorem Values.index_ne_nil_of_mem (v : Values) (hv : ∀ e ∈ v, e.2 ≠ [])
    (e : GoString × List GoString) (he : e ∈ v) : v.index e.1 ≠ [] := by
  induction v with
  | nil => simp at he
  | cons e0 m ih =>
    rw [Values.index_cons]
    by_cases h0 : e0.1 = e.1
    · rw [if_pos h0]; exact hv e0 (List.mem_cons_self _ _)
    · rw [if_neg h0]
      rcases List.mem_cons.mp he with h1 | h1
      · exact absurd (h1 ▸ rfl) h0
      · exact ih (fun e he => hv e (List.mem_cons_of_mem _ he)) h1

/-- The query of the URL for the delegate, by key: nothing under a reserved
key, and under every other key what the query of the source URL has. -/
theorem takeParams_index (u : URL) (key : GoString) :
    (takeParams u).u.Query.index key =
      if key ∈ reserved then [] else u.Query.index key := by
  unfold takeParams
  by_cases hq : u.Query.length > 0
  · have hq2 : (ParseQuery u.RawQuery).length > 0 := hq
    simp only [URL.Query, hq2, if_true]
    rw [Values.index_ParseQuery_Encode _
      (Values.nodup_Del _ _ (Values.nodup_Del _ _ (Values.nodup_Del _ _
        (Values.nodup_Del _ _ (ParseQuery_wf _).1))))]
    by_cases h4 : key = bs "newkey"
    · rw [h4, Values.index_Del_self, if_pos (by decide)]
    · rw [Values.index_Del_of_ne _ h4]
      by_cases h3 : key = bs "type"
      · rw [h3, Values.index_Del_self, if_pos (by decide)]
      · rw [Values.index_Del_of_ne _ h3]
        by_cases h2 : key = bs "format"
        · rw [h2, Values.index_Del_self, if_pos (by decide)]
        · rw [Values.index_Del_of_ne _ h2]
          by_cases h1 : key = bs "xpath"
          · rw [h1, Values.index_Del_self, if_pos (by decide)]
          · rw [Values.index_Del_of_ne _ h1, if_neg]
            simp only [reserved, List.mem_cons, List.mem_singleton, not_or]
            exact ⟨h1, h2, h3, h4, by simp⟩
  · simp only [hq, if_false]
    have : u.Query = [] := List.length_eq_zero.mp (by omega)
    rw [this]
    simp [Values.index]

theorem prefix_two {α : Type} (l a b : List α) : l <+: l ++ a ++ b :=
  (List.prefix_append l a).trans (List.prefix_append _ b)

theorem prefix_three {α : Type} (l a b c : List α) : l <+: l ++ a ++ b ++ c :=
  (prefix_two l a b).trans (List.prefix_append _ c)

theorem prefix_four {α : Type} (l a b c d : List α) : l <+: l ++ a ++ b ++ c ++ d :=
  (prefix_three l a b c).trans (List.prefix_append _ d)

theorem readYAML_log {P : Type} (E : Env P) (w : World) (dst : GoString) :
    w.log <+: (readYAML E w dst).2.log := by
  unfold readYAML
  simp only [World.record]
  split
  · exact List.prefix_append _ _
  · split <;> exact prefix_two _ _ _

theorem save_log {P : Type} (E : Env P) (w : World) (dst buf : GoString) :
    w.log <+: (save E w dst buf).2.log := by
  unfold save
  simp only [World.record]
  split
  · exact List.prefix_append _ _
  · split <;> exact prefix_two _ _ _

theorem xpathYAML_log {P : Type} (E : Env P) (w : World) (dst y xpath resultType newKey : GoString) :
    w.log <+: (xpathYAML E w dst y xpath resultType newKey).2.log := by
  unfold xpathYAML
  simp only [World.record]
  split
  · exact List.prefix_append _ _
  · split
    · exact prefix_two _ _ _
    · split
      · exact prefix_three _ _ _ _
      · split
        · exact prefix_three _ _ _ _
        · split
          · exact prefix_three _ _ _ _
          · exact prefix_three _ _ _ _
          · split <;> exact prefix_four _ _ _ _ _

theorem extract_log {P : Type} (E : Env P) (w : World) (dst : GoString) (r : Request)
    (format : GoString) : w.log <+: (extract E w dst r format).2.log := by
  unfold extract
  have h1 := readYAML_log E w dst
  split
  · rcases hr : readYAML E w dst with ⟨_ | _ | _, w2⟩
    · rw [hr] at h1
      rename_i y
      have h2 := xpathYAML_log E w2 dst y r.xpath r._type r.newKey
      dsimp only
      rcases hx : xpathYAML E w2 dst y r.xpath r._type r.newKey with ⟨_ | _ | _, w3⟩ <;>
        (rw [hx] at h2; exact h1.trans h2)
    · rw [hr] at h1; exact h1
    · rw [hr] at h1; exact h1
  · split
    · exact List.prefix_refl _
    · exact List.prefix_refl _

/-- The first call `GetFile` makes is the delegate's `GetFile`, on the URL of
`takeParams`. -/
theorem GetFile_log {P : Type} (E : Env P) (w : World) (dst : GoString) (u : URL) :
    ∃ calls : List Call,
      (GetFile E w dst u).2.log = w.log ++ .httpGetFile dst (takeParams u).u :: calls := by
  suffices h : (w.log ++ [.httpGetFile dst (takeParams u).u]) <+: (GetFile E w dst u).2.log by
    obtain ⟨t, ht⟩ := h
    exact ⟨t, by rw [← ht]; simp⟩
  unfold GetFile
  simp only [World.record]
  rcases hf : E.httpGetFile w.files dst (takeParams u).u with ⟨_ | err, fs⟩
  · simp only
    have h1 := extract_log E
      { files := fs, log := w.log ++ [.httpGetFile dst (takeParams u).u] } dst (takeParams u)
      (if (takeParams u).format.length = 0 ∧ (takeParams u).xpath.length > 0 then yaml
        else (takeParams u).format)
    rcases hx : extract E
      { files := fs, log := w.log ++ [.httpGetFile dst (takeParams u).u] } dst (takeParams u)
      (if (takeParams u).format.length = 0 ∧ (takeParams u).xpath.length > 0 then yaml
        else (takeParams u).format) with ⟨_ | _ | _, w2⟩
    · rw [hx] at h1
      rename_i buf
      cases buf with
      | none => exact h1
      | some b => exact h1.trans (save_log E w2 dst b)
    · rw [hx] at h1; exact h1
    · rw [hx] at h1; exact h1
  · exact List.prefix_refl _

/-- Every error `GetFile` returns after a download is the error of a step
before `save`, as listed by `FailsBeforeSave`, or the error of `save` itself
on the buffer extracted. -/
theorem GetFile_error_cases {P : Type} (E : Env P) (w : World) (dst : GoString) (u : URL)
    (fs : Files) (y msg : GoString)
    (hfetch : E.httpGetFile w.files dst (takeParams u).u = (none, fs))
    (hdl : fs dst = some y)
    (herr : (GetFile E w dst u).1 = .error msg) :
    FailsBeforeSave E fs dst y (u.Query.Get (bs "xpath")) (u.Query.Get (bs "format"))
      (u.Query.Get (bs "type")) (u.Query.Get (bs "newkey")) msg ∨
    ∃ (buf : GoString) (w3 : World), (save E w3 dst buf).1 = .error msg := by
  rw [← takeParams_xpath, ← takeParams_format, ← takeParams_type, ← takeParams_newKey]
  by_cases hformat : (takeParams u).format = bs "yaml" ∨
      ((takeParams u).format = [] ∧ (takeParams u).xpath ≠ [])
  · rw [GetFile_yaml E w dst u fs hfetch hformat] at herr
    rcases hopen : E.openFile fs dst false with _ | err
    · rcases hread : E.readAll fs dst with _ | err
      · rw [readYAML_ok E _ dst y hdl hopen hread] at herr
        rcases hparse : E.unmarshal y with err | n
        · left
          simp [xpathYAML, hparse, World.record] at herr
          rw [← herr]
          have hfail : FailsBeforeSave E fs dst y (takeParams u).xpath (takeParams u).format
              (takeParams u)._type (takeParams u).newKey _ := .unmarshal err hformat hopen hread hparse
          simpa [List.append_assoc] using hfail
        · rcases hpath : E.newPath (takeParams u).xpath with err | p
          · left
            simp [xpathYAML, hparse, hpath, World.record] at herr
            rw [← herr]
            exact .newPath n err hformat hopen hread hparse hpath
          · rcases hfind : E.find p n with err | qry
            · left
              simp [xpathYAML, hparse, hpath, hfind, World.record] at herr
              rw [← herr]
              exact .find n p err hformat hopen hread hparse hpath hfind
            · by_cases hA : qry.len > 1 ∧ (takeParams u)._type ≠ bs "list"
              · left
                simp only [xpathYAML, hparse, hpath, hfind, World.record, if_pos hA] at herr
                simp at herr
                rw [← herr]
                exact .arity n p qry hformat hopen hread hparse hpath hfind hA.1 hA.2
              · rcases qry with _ | _ | ⟨first, rest⟩
                · right
                  simp only [xpathYAML, hparse, hpath, hfind, World.record, if_neg hA] at herr
                  exact ⟨_, _, herr⟩
                · simp only [xpathYAML, hparse, hpath, hfind, World.record, if_neg hA] at herr
                  simp at herr
                · have harity : rest = [] ∨ (takeParams u)._type = bs "list" := by
                    by_contra hc
                    rw [not_or] at hc
                    apply hA
                    refine ⟨?_, hc.2⟩
                    cases rest with
                    | nil => exact absurd rfl hc.1
                    | cons a r => simp [Slice.len]
                  have hx := xpathYAML_first E
                    { files := fs,
                      log := w.log ++ [.httpGetFile dst (takeParams u).u, .openFile dst false,
                        .readAll dst] }
                    dst y _ _ (takeParams u).newKey n p first rest hparse hpath hfind harity
                  simp only [List.append_assoc, List.singleton_append, List.cons_append,
                    List.nil_append] at hx herr
                  rw [hx] at herr
                  rcases henc : E.encode 2 (if (takeParams u).newKey.length > 0
                    then newKeyedNodes (takeParams u).newKey first else first) with err | out
                  · left
                    rw [henc] at herr
                    simp at herr
                    rw [← herr]
                    exact .encode n p first rest err hformat hopen hread hparse hpath hfind
                      harity henc
                  · right
                    rw [henc] at herr
                    exact ⟨_, _, herr⟩
      · left
        simp [readYAML, World.record, hopen, Files.opened_of_some hdl, hread] at herr
        rw [← herr]
        have hfail : FailsBeforeSave E fs dst y (takeParams u).xpath (takeParams u).format
            (takeParams u)._type (takeParams u).newKey _ := .readAll err hformat hopen hread
        simpa [List.append_assoc] using hfail
    · left
      simp [readYAML, World.record, hopen] at herr
      rw [← herr]
      have hfail : FailsBeforeSave E fs dst y (takeParams u).xpath (takeParams u).format
          (takeParams u)._type (takeParams u).newKey _ := .openFile err hformat hopen
      simpa [List.append_assoc] using hfail
  · left
    rw [not_or] at hformat
    have hy : ¬ (takeParams u).format = yaml := hformat.1
    have hcond : ¬ ((takeParams u).format.length = 0 ∧ (takeParams u).xpath.length > 0) := by
      intro hc
      exact hformat.2 ⟨List.length_eq_zero.mp hc.1, List.length_pos.mp hc.2⟩
    simp only [GetFile, hfetch, World.record, if_neg hcond, extract, if_neg hy] at herr
    by_cases hpos : (takeParams u).format.length > 0
    · simp only [if_pos hpos] at herr
      simp at herr
      rw [← herr]
      exact .unsupportedFormat (List.length_pos.mp hpos) hformat.1
    · simp only [if_neg hpos] at herr
      simp at herr

/-! ## The claims -/

/-- C2, amended: the first call of `GetFile` is the delegate's `GetFile` on a
URL that is the source URL but for its raw query (scheme, user, host and path
among the fields kept); the query parsed from it has no reserved key
(`xpath`, `format`, `type`, `newkey`), and under every other key it has the
values of the source URL's query, in their order.  When the query of the
source URL parses to nothing, the URL is handed on as it is. -/
theorem C2_delegate_url {P : Type} (E : Env P) (w : World) (dst : GoString) (u : URL) :
    (∃ calls : List Call,
      (GetFile E w dst u).2.log = w.log ++ .httpGetFile dst (takeParams u).u :: calls) ∧
    (takeParams u).u = { u with RawQuery := (takeParams u).u.RawQuery } ∧
    (takeParams u).u.Scheme = u.Scheme ∧ (takeParams u).u.User = u.User ∧
    (takeParams u).u.Host = u.Host ∧ (takeParams u).u.Path = u.Path ∧
    (∀ e ∈ (takeParams u).u.Query, e.1 ∉ reserved) ∧
    (∀ key, key ∉ reserved → (takeParams u).u.Query.index key = u.Query.index key) ∧
    (u.Query = [] → (takeParams u).u = u) := by
  have hfields : (takeParams u).u = { u with RawQuery := (takeParams u).u.RawQuery } := by
    unfold takeParams
    by_cases hq : u.Query.length > 0
    · simp only [hq, if_true]
    · simp only [hq, if_false]
  refine ⟨GetFile_log E w dst u, hfields, ?_, ?_, ?_, ?_, ?_, ?_, ?_⟩
  · rw [hfields]
  · rw [hfields]
  · rw [hfields]
  · rw [hfields]
  · intro e he hres
    have h1 := Values.index_ne_nil_of_mem _ (ParseQuery_wf (takeParams u).u.RawQuery).2 e he
    have h2 := takeParams_index u e.1
    rw [if_pos hres] at h2
    exact h1 h2
  · intro key hkey
    rw [takeParams_index, if_neg hkey]
  · intro hq
    unfold takeParams
    simp [hq]

/-- C3: when the `format` of the URL is non-empty and is not exactly `yaml`,
then, whatever the `xpath`, once the delegate has fetched the file `GetFile`
returns the error `unsupported format <format>, yet`; the delegate's call is
the only call made (no file is opened, nothing is parsed, no path is compiled
or evaluated) and the files are as the delegate left them. -/
theorem C3_unsupported_format {P : Type} (E : Env P) (w : World) (dst : GoString) (u : URL)
    (fs : Files)
    (hfetch : E.httpGetFile w.files dst (takeParams u).u = (none, fs))
    (hne : u.Query.Get (bs "format") ≠ [])
    (hyaml : u.Query.Get (bs "format") ≠ bs "yaml") :
    GetFile E w dst u =
      (.error (bs "unsupported format " ++ u.Query.Get (bs "format") ++ bs ", yet"),
        { files := fs, log := w.log ++ [.httpGetFile dst (takeParams u).u] }) := by
  rw [← takeParams_format] at hne hyaml ⊢
  have hlen : ¬ (takeParams u).format.length = 0 := fun h => hne (List.length_eq_zero.mp h)
  have hpos : (takeParams u).format.length > 0 := by omega
  have hy : ¬ (takeParams u).format = yaml := hyaml
  simp [GetFile, hfetch, World.record, extract, hlen, hy, hpos]

/-- C4: when the `xpath` and the `format` of the URL are both absent or empty,
`GetFile` returns what the delegate returned, the delegate's call is the only
call made (the file is not opened, read or written), and the files are as the
delegate left them. -/
theorem C4_plain_fetch {P : Type} (E : Env P) (w : World) (dst : GoString) (u : URL)
    (hx : u.Query.Get (bs "xpath") = []) (hf : u.Query.Get (bs "format") = []) :
    GetFile E w dst u =
      (Outcome.ofError (E.httpGetFile w.files dst (takeParams u).u).1,
        { files := (E.httpGetFile w.files dst (takeParams u).u).2,
          log := w.log ++ [.httpGetFile dst (takeParams u).u] }) := by
  rw [← takeParams_xpath] at hx
  rw [← takeParams_format] at hf
  rcases h : E.httpGetFile w.files dst (takeParams u).u with ⟨_ | err, fs⟩
  · have hy : ¬ ([] : GoString) = yaml := by decide
    simp [GetFile, h, World.record, extract, hx, hf, hy, Outcome.ofError]
  · simp [GetFile, h, World.record, Outcome.ofError]

/-- C1: when the `format` of the URL is `yaml`, or is absent with an `xpath`
given, the `newkey` is empty, the delegate has downloaded a document into
`dst` and the `xpath` query on that document yields exactly one node, then
(the file being readable and writable, the node encodable) `GetFile` returns
no error and `dst` afterwards holds exactly the encoding, with indentation 2,
of that node; the other files are as the delegate left them. -/
theorem C1_single_match {P : Type} (E : Env P) (w : World) (dst : GoString) (u : URL)
    (fs : Files) (y : GoString) (n : Node) (p : P) (node : Node) (out : GoString)
    (hformat : u.Query.Get (bs "format") = bs "yaml" ∨
      (u.Query.Get (bs "format") = [] ∧ u.Query.Get (bs "xpath") ≠ []))
    (hnewkey : u.Query.Get (bs "newkey") = [])
    (hfetch : E.httpGetFile w.files dst (takeParams u).u = (none, fs))
    (hdl : fs dst = some y)
    (hopen : E.openFile fs dst false = none) (hread : E.readAll fs dst = none)
    (hparse : E.unmarshal y = .ok n)
    (hpath : E.newPath (u.Query.Get (bs "xpath")) = .ok p)
    (hfind : E.find p n = .ok (some [node]))
    (henc : E.encode 2 node = .ok out)
    (hopenw : E.openFile fs dst true = none)
    (hwrite : E.write (fs.opened dst true) dst out = none) :
    (GetFile E w dst u).1 = .ok () ∧
      (GetFile E w dst u).2.files dst = some out ∧
      ∀ name, name ≠ dst → (GetFile E w dst u).2.files name = fs name := by
  have henc2 : E.encode 2 (if (u.Query.Get (bs "newkey")).length > 0
      then newKeyedNodes (u.Query.Get (bs "newkey")) node else node) = .ok out := by
    simp [hnewkey, henc]
  rw [GetFile_first E w dst u fs y n p node [] out hformat hfetch hdl hopen hread hparse hpath
    hfind (Or.inl rfl) henc2 hopenw hwrite]
  refine ⟨rfl, Files.put_same _ _ _, ?_⟩
  intro name hname
  simp [Files.put, hname]

/-- C5: when the `xpath` query on the downloaded document yields no node (the
`nil` result the path library returns when nothing matches), then for every
`type` and `newkey` `GetFile` returns no error (it does not panic on the first
element either: nothing is encoded) and `dst` is overwritten with zero bytes. -/
theorem C5_no_match {P : Type} (E : Env P) (w : World) (dst : GoString) (u : URL)
    (fs : Files) (y : GoString) (n : Node) (p : P)
    (hformat : u.Query.Get (bs "format") = bs "yaml" ∨
      (u.Query.Get (bs "format") = [] ∧ u.Query.Get (bs "xpath") ≠ []))
    (hfetch : E.httpGetFile w.files dst (takeParams u).u = (none, fs))
    (hdl : fs dst = some y)
    (hopen : E.openFile fs dst false = none) (hread : E.readAll fs dst = none)
    (hparse : E.unmarshal y = .ok n)
    (hpath : E.newPath (u.Query.Get (bs "xpath")) = .ok p)
    (hfind : E.find p n = .ok none)
    (hopenw : E.openFile fs dst true = none)
    (hwrite : E.write (fs.opened dst true) dst [] = none) :
    GetFile E w dst u =
      (.ok (),
        { files := fs.put dst [],
          log := w.log ++ [.httpGetFile dst (takeParams u).u, .openFile dst false, .readAll dst,
            .unmarshal y, .newPath (u.Query.Get (bs "xpath")), .find n,
            .openFile dst true, .write dst []] }) ∧
      (GetFile E w dst u).2.files dst = some [] := by
  rw [← takeParams_format, ← takeParams_xpath] at hformat
  rw [← takeParams_xpath] at hpath ⊢
  have key : GetFile E w dst u =
      (.ok (),
        { files := fs.put dst [],
          log := w.log ++ [.httpGetFile dst (takeParams u).u, .openFile dst false, .readAll dst,
            .unmarshal y, .newPath (takeParams u).xpath, .find n,
            .openFile dst true, .write dst []] }) := by
    simp only [GetFile, hfetch, World.record, effective_yaml hformat, extract, if_true]
    rw [readYAML_ok E _ dst y hdl hopen hread]
    simp [xpathYAML, hparse, hpath, hfind, World.record, Slice.len, save, hopenw, hwrite,
      Files.put_opened]
  rw [key]
  exact ⟨rfl, Files.put_same _ _ _⟩

/-- C6: the node `xpathYAML` encodes.  For a non-empty `newkey` it is a
document node whose only child is a mapping node with one entry, the key a
scalar node with value `newkey`, the value the selected node (the first node
of the query result) itself; for an empty `newkey` it is the selected node.
The buffer returned holds the encoding of that node. -/
theorem C6_newkey_wrapper {P : Type} (E : Env P) (w : World)
    (dst y xpath resultType newKey : GoString)
    (n : Node) (p : P) (selected : Node) (rest : List Node)
    (hparse : E.unmarshal y = .ok n) (hpath : E.newPath xpath = .ok p)
    (hfind : E.find p n = .ok (some (selected :: rest)))
    (harity : rest = [] ∨ resultType = bs "list") :
    ∃ node : Node,
      (xpathYAML E w dst y xpath resultType newKey).2.log =
        w.log ++ [.unmarshal y, .newPath xpath, .find n, .encode 2 node] ∧
      (∀ out, E.encode 2 node = .ok out →
        (xpathYAML E w dst y xpath resultType newKey).1 = .ok out) ∧
      (newKey = [] → node = selected) ∧
      (newKey ≠ [] → ∃ m key : Node,
        node.Kind = DocumentNode ∧ node.Content = [m] ∧
        m.Kind = MappingNode ∧ m.Content = [key, selected] ∧
        key.Kind = ScalarNode ∧ key.Value = newKey ∧ key.Content = []) := by
  refine ⟨if newKey.length > 0 then newKeyedNodes newKey selected else selected, ?_, ?_, ?_, ?_⟩
  · rw [xpathYAML_first E w dst y xpath resultType newKey n p selected rest hparse hpath hfind
      harity]
  · intro out hout
    rw [xpathYAML_first E w dst y xpath resultType newKey n p selected rest hparse hpath hfind
      harity, hout]
  · intro h
    subst h
    rfl
  · intro h
    have hpos : newKey.length > 0 := List.length_pos.mpr h
    rw [if_pos hpos]
    exact ⟨Node.lit MappingNode [] [Node.lit ScalarNode newKey [], selected],
      Node.lit ScalarNode newKey [], rfl, rfl, rfl, rfl, rfl, rfl, rfl⟩

/-- C7: when the `xpath` query yields `n ≥ 2` nodes and `type` is not exactly
`list`, `xpathYAML` returns the error
`unexpected result: more elements than 1: n`, and `GetFile` returns that
error; nothing is encoded, `dst` is not opened for writing and the files are
as the delegate left them. -/
theorem C7_arity_error {P : Type} (E : Env P) (w : World) (dst : GoString) (u : URL)
    (fs : Files) (y : GoString) (n : Node) (p : P) (nodes : List Node)
    (hformat : u.Query.Get (bs "format") = bs "yaml" ∨
      (u.Query.Get (bs "format") = [] ∧ u.Query.Get (bs "xpath") ≠ []))
    (hfetch : E.httpGetFile w.files dst (takeParams u).u = (none, fs))
    (hdl : fs dst = some y)
    (hopen : E.openFile fs dst false = none) (hread : E.readAll fs dst = none)
    (hparse : E.unmarshal y = .ok n)
    (hpath : E.newPath (u.Query.Get (bs "xpath")) = .ok p)
    (hfind : E.find p n = .ok (some nodes))
    (hmany : 2 ≤ nodes.length)
    (htype : u.Query.Get (bs "type") ≠ bs "list") :
    (∀ w2 : World,
      (xpathYAML E w2 dst y (u.Query.Get (bs "xpath")) (u.Query.Get (bs "type"))
        (u.Query.Get (bs "newkey"))).1 =
        .error (bs "unexpected result: more elements than 1: " ++ fmtInt nodes.length)) ∧
    GetFile E w dst u =
      (.error (bs "unexpected result: more elements than 1: " ++ fmtInt nodes.length),
        { files := fs,
          log := w.log ++ [.httpGetFile dst (takeParams u).u, .openFile dst false, .readAll dst,
            .unmarshal y, .newPath (u.Query.Get (bs "xpath")), .find n] }) := by
  have hA : nodes.length > 1 ∧ u.Query.Get (bs "type") ≠ bs "list" := ⟨by omega, htype⟩
  constructor
  · intro w2
    simp only [xpathYAML, hparse, hpath, hfind, World.record, Slice.len, if_pos hA]
  · rw [← takeParams_format, ← takeParams_xpath] at hformat
    rw [← takeParams_xpath] at hpath ⊢
    rw [← takeParams_type] at hA
    simp only [GetFile, hfetch, World.record, effective_yaml hformat, extract, if_true]
    rw [readYAML_ok E _ dst y hdl hopen hread]
    simp only [xpathYAML, hparse, hpath, hfind, World.record, Slice.len, if_pos hA]
    simp

/-- C9: when the delegate has downloaded `y` into `dst` and a later step
fails before the final write (unsupported format, the file cannot be opened
or read, the YAML does not parse, the `xpath` does not compile, the query
fails, the arity error, the node cannot be encoded), `GetFile` returns the
error of that step, none of the calls it made is one of `save` (no truncating
open, no write), and the files, `dst` among them, are as the delegate left
them. -/
theorem C9_error_leaves_download {P : Type} (E : Env P) (w : World) (dst : GoString) (u : URL)
    (fs : Files) (y msg : GoString)
    (hfetch : E.httpGetFile w.files dst (takeParams u).u = (none, fs))
    (hdl : fs dst = some y)
    (hfail : FailsBeforeSave E fs dst y (u.Query.Get (bs "xpath")) (u.Query.Get (bs "format"))
      (u.Query.Get (bs "type")) (u.Query.Get (bs "newkey")) msg) :
    (GetFile E w dst u).1 = .error msg ∧
      (GetFile E w dst u).2.files = fs ∧
      ∃ calls : List Call, (GetFile E w dst u).2.log = w.log ++ calls ∧
        ∀ c ∈ calls, c.isSave = false := by
  rw [← takeParams_xpath, ← takeParams_format, ← takeParams_type, ← takeParams_newKey] at hfail
  cases hfail with
  | unsupportedFormat hne hyaml =>
    have hlen : ¬ (takeParams u).format.length = 0 := fun h => hne (List.length_eq_zero.mp h)
    have hpos : (takeParams u).format.length > 0 := by omega
    have hy : ¬ (takeParams u).format = yaml := hyaml
    refine ⟨?_, ?_, [.httpGetFile dst (takeParams u).u], ?_, ?_⟩ <;>
      simp [GetFile, hfetch, World.record, extract, hlen, hy, hpos, Call.isSave]
  | openFile err hformat hopen =>
    rw [GetFile_yaml E w dst u fs hfetch hformat]
    refine ⟨?_, ?_, [.httpGetFile dst (takeParams u).u, .openFile dst false], ?_, ?_⟩ <;>
      simp [World.record, readYAML, hopen, Call.isSave]
  | readAll err hformat hopen hread =>
    rw [GetFile_yaml E w dst u fs hfetch hformat]
    refine ⟨?_, ?_, [.httpGetFile dst (takeParams u).u, .openFile dst false, .readAll dst], ?_,
      ?_⟩ <;>
      simp [World.record, readYAML, hopen, Files.opened_of_some hdl, hread, Call.isSave]
  | unmarshal err hformat hopen hread hparse =>
    rw [GetFile_yaml E w dst u fs hfetch hformat, readYAML_ok E _ dst y hdl hopen hread]
    refine ⟨?_, ?_, [.httpGetFile dst (takeParams u).u, .openFile dst false, .readAll dst,
      .unmarshal y], ?_, ?_⟩ <;>
      simp [World.record, xpathYAML, hparse, Call.isSave]
  | newPath n err hformat hopen hread hparse hpath =>
    rw [GetFile_yaml E w dst u fs hfetch hformat, readYAML_ok E _ dst y hdl hopen hread]
    refine ⟨?_, ?_, [.httpGetFile dst (takeParams u).u, .openFile dst false, .readAll dst,
      .unmarshal y, .newPath (takeParams u).xpath], ?_, ?_⟩ <;>
      simp [World.record, xpathYAML, hparse, hpath, Call.isSave]
  | find n p err hformat hopen hread hparse hpath hfind =>
    rw [GetFile_yaml E w dst u fs hfetch hformat, readYAML_ok E _ dst y hdl hopen hread]
    refine ⟨?_, ?_, [.httpGetFile dst (takeParams u).u, .openFile dst false, .readAll dst,
      .unmarshal y, .newPath (takeParams u).xpath, .find n], ?_, ?_⟩ <;>
      simp [World.record, xpathYAML, hparse, hpath, hfind, Call.isSave]
  | arity n p qry hformat hopen hread hparse hpath hfind hmany htype =>
    have hA : qry.len > 1 ∧ (takeParams u)._type ≠ bs "list" := ⟨hmany, htype⟩
    rw [GetFile_yaml E w dst u fs hfetch hformat, readYAML_ok E _ dst y hdl hopen hread]
    simp only [xpathYAML, hparse, hpath, hfind, World.record, if_pos hA]
    refine ⟨?_, ?_, [.httpGetFile dst (takeParams u).u, .openFile dst false, .readAll dst,
      .unmarshal y, .newPath (takeParams u).xpath, .find n], ?_, ?_⟩ <;>
      simp [Call.isSave]
  | encode n p first rest err hformat hopen hread hparse hpath hfind harity henc =>
    have hx := xpathYAML_first E
      { files := fs,
        log := w.log ++ [.httpGetFile dst (takeParams u).u, .openFile dst false, .readAll dst] }
      dst y _ _ (takeParams u).newKey n p first rest hparse hpath hfind harity
    rw [henc] at hx
    rw [GetFile_yaml E w dst u fs hfetch hformat, readYAML_ok E _ dst y hdl hopen hread]
    simp only [List.append_assoc, List.singleton_append, List.cons_append, List.nil_append]
      at hx ⊢
    rw [hx]
    refine ⟨?_, ?_, [.httpGetFile dst (takeParams u).u, .openFile dst false, .readAll dst,
      .unmarshal y, .newPath (takeParams u).xpath, .find n,
      .encode 2 (if (takeParams u).newKey.length > 0
        then newKeyedNodes (takeParams u).newKey first else first)], ?_, ?_⟩ <;>
      simp [Call.isSave]

/-- C8, what the code does: with `type` exactly `list` and an empty `newkey`,
when the query yields a first node and at least one more, `GetFile` succeeds,
but the one node it hands to the encoder is the first of the result, and what
it writes to `dst` is the encoding of that node alone, not a sequence of the
nodes matched. -/
theorem C8_list_writes_first_only {P : Type} (E : Env P) (w : World) (dst : GoString) (u : URL)
    (fs : Files) (y : GoString) (n : Node) (p : P) (first second : Node) (rest : List Node)
    (out : GoString)
    (hformat : u.Query.Get (bs "format") = bs "yaml" ∨
      (u.Query.Get (bs "format") = [] ∧ u.Query.Get (bs "xpath") ≠ []))
    (htype : u.Query.Get (bs "type") = bs "list")
    (hnewkey : u.Query.Get (bs "newkey") = [])
    (hfetch : E.httpGetFile w.files dst (takeParams u).u = (none, fs))
    (hdl : fs dst = some y)
    (hopen : E.openFile fs dst false = none) (hread : E.readAll fs dst = none)
    (hparse : E.unmarshal y = .ok n)
    (hpath : E.newPath (u.Query.Get (bs "xpath")) = .ok p)
    (hfind : E.find p n = .ok (some (first :: second :: rest)))
    (henc : E.encode 2 first = .ok out)
    (hopenw : E.openFile fs dst true = none)
    (hwrite : E.write (fs.opened dst true) dst out = none) :
    GetFile E w dst u =
      (.ok (),
        { files := fs.put dst out,
          log := w.log ++ [.httpGetFile dst (takeParams u).u, .openFile dst false, .readAll dst,
            .unmarshal y, .newPath (u.Query.Get (bs "xpath")), .find n, .encode 2 first,
            .openFile dst true, .write dst out] }) := by
  have henc2 : E.encode 2 (if (u.Query.Get (bs "newkey")).length > 0
      then newKeyedNodes (u.Query.Get (bs "newkey")) first else first) = .ok out := by
    simp [hnewkey, henc]
  have h := GetFile_first E w dst u fs y n p first (second :: rest) out hformat hfetch hdl hopen
    hread hparse hpath hfind (Or.inr htype) henc2 hopenw hwrite
  simpa [hnewkey] using h

/-- C10, what the code does: with `format=yaml` and the `xpath` absent or
empty, `GetFile` does extract: the downloaded file is read and parsed, the
empty path is compiled and evaluated, the first node of the result is encoded
and `dst` is truncated and rewritten with that encoding. -/
theorem C10_format_yaml_extracts {P : Type} (E : Env P) (w : World) (dst : GoString) (u : URL)
    (fs : Files) (y : GoString) (n : Node) (p : P) (first : Node) (rest : List Node)
    (out : GoString)
    (hxpath : u.Query.Get (bs "xpath") = [])
    (hformat : u.Query.Get (bs "format") = bs "yaml")
    (hfetch : E.httpGetFile w.files dst (takeParams u).u = (none, fs))
    (hdl : fs dst = some y)
    (hopen : E.openFile fs dst false = none) (hread : E.readAll fs dst = none)
    (hparse : E.unmarshal y = .ok n)
    (hpath : E.newPath [] = .ok p)
    (hfind : E.find p n = .ok (some (first :: rest)))
    (harity : rest = [] ∨ u.Query.Get (bs "type") = bs "list")
    (henc : E.encode 2 (if (u.Query.Get (bs "newkey")).length > 0
      then newKeyedNodes (u.Query.Get (bs "newkey")) first else first) = .ok out)
    (hopenw : E.openFile fs dst true = none)
    (hwrite : E.write (fs.opened dst true) dst out = none) :
    GetFile E w dst u =
      (.ok (),
        { files := fs.put dst out,
          log := w.log ++ [.httpGetFile dst (takeParams u).u, .openFile dst false, .readAll dst,
            .unmarshal y, .newPath [], .find n,
            .encode 2 (if (u.Query.Get (bs "newkey")).length > 0
              then newKeyedNodes (u.Query.Get (bs "newkey")) first else first),
            .openFile dst true, .write dst out] }) := by
  rw [← hxpath] at hpath
  have h := GetFile_first E w dst u fs y n p first rest out (Or.inl hformat) hfetch hdl hopen
    hread hparse hpath hfind harity henc hopenw hwrite
  rw [hxpath] at h
  exact h

/-! ## The claims at the document of the test server -/

/-- C3 on `xpath=yaml&format=json` (`TestConfigServerGetter_unsupported_format`):
the error names `json`, and the downloaded file is left as it is. -/
theorem C3_unsupported_format_witness :
    Example.failure "xpath=yaml&format=json" = some (bs "unsupported format json, yet") ∧
      Example.fetched "xpath=yaml&format=json" = some Example.document := by
  have h := C3_unsupported_format Example.env Example.start Example.dst
    (Example.url "xpath=yaml&format=json") Example.downloaded rfl (by decide) (by decide)
  unfold Example.failure Example.fetched
  rw [h]
  exact ⟨by decide, rfl⟩

/-- C4 on the URL without a query (`TestConfigServerGetter_yaml`), and with
only `type` and `newkey`: the file is the download. -/
theorem C4_plain_fetch_witness :
    Example.fetched "type=list&newkey=prefix" = some Example.document ∧
      Example.succeeded "type=list&newkey=prefix" = true := by
  have h := C4_plain_fetch Example.env Example.start Example.dst
    (Example.url "type=list&newkey=prefix") (by decide) (by decide)
  unfold Example.fetched Example.succeeded
  rw [h]
  exact ⟨rfl, rfl⟩

/-- C1 on `xpath=yaml.key1` (`TestConfigServerGetter_yaml_key1`), where the file
is `value1\n`, and on `xpath=yaml` (`TestConfigServerGetter_yaml_root_key`),
where it is the mapping under `yaml` without the `yaml:` line. -/
theorem C1_single_match_witness :
    (GetFile Example.env Example.start Example.dst (Example.url "xpath=yaml.key1")).1 = .ok () ∧
      Example.fetched "xpath=yaml.key1" = some (bs "value1\n") ∧
      Example.fetched "xpath=yaml" = some (bs
        "key1: value1\nkey2: value2\nkey3:\n  subkey3_1: subvalue3_1\n  subkey3_2: subvalue3_2\n") :=
  have h := C1_single_match Example.env Example.start Example.dst (Example.url "xpath=yaml.key1")
    Example.downloaded Example.document Example.tree [bs "yaml", bs "key1"]
    (Example.scalar "value1") (bs "value1\n")
    (by decide) (by decide) rfl rfl rfl rfl rfl rfl rfl rfl rfl rfl
  have h2 := C1_single_match Example.env Example.start Example.dst (Example.url "xpath=yaml")
    Example.downloaded Example.document Example.tree [bs "yaml"] Example.inner
    (bs "key1: value1\nkey2: value2\nkey3:\n  subkey3_1: subvalue3_1\n  subkey3_2: subvalue3_2\n")
    (by decide) (by decide) rfl rfl rfl rfl rfl rfl rfl rfl rfl rfl
  ⟨h.1, h.2.1, h2.2.1⟩

/-- C5 on `xpath=key1` (`TestConfigServerGetter_yaml_absent_xpath`): no error,
and the file is empty. -/
theorem C5_no_match_witness :
    (GetFile Example.env Example.start Example.dst (Example.url "xpath=key1&newkey=k")).1 = .ok () ∧
      Example.fetched "xpath=key1&newkey=k" = some [] :=
  have h := C5_no_match Example.env Example.start Example.dst (Example.url "xpath=key1&newkey=k")
    Example.downloaded Example.document Example.tree [bs "key1"]
    (by decide) rfl rfl rfl rfl rfl rfl rfl rfl rfl
  ⟨congrArg Prod.fst h.1, h.2⟩

/-- C7 on `xpath=yaml.*`, which selects the three values under `yaml`: the
error reports 3, and the file is the download. -/
theorem C7_arity_error_witness :
    Example.failure "xpath=yaml.*" = some (bs "unexpected result: more elements than 1: 3") ∧
      Example.fetched "xpath=yaml.*" = some Example.document := by
  have h := C7_arity_error Example.env Example.start Example.dst (Example.url "xpath=yaml.*")
    Example.downloaded Example.document Example.tree [bs "yaml", bs "*"]
    [Example.scalar "value1", Example.scalar "value2", Example.key3]
    (by decide) rfl rfl rfl rfl rfl rfl rfl (by decide) (by decide)
  unfold Example.failure Example.fetched
  rw [h.2]
  exact ⟨by decide, rfl⟩

/-- C6 on `xpath=yaml.key3&newkey=prefix` (`TestConfigServerGetter_yaml_newkey`):
the node encoded is a document with the one key `prefix`, its value the
mapping under `key3`, and the file holds that mapping under `prefix:`. -/
theorem C6_newkey_wrapper_witness :
    (∃ node m key : Node,
      (xpathYAML Example.env Example.start Example.dst Example.document (bs "yaml.key3") []
        (bs "prefix")).2.log =
        [.unmarshal Example.document, .newPath (bs "yaml.key3"), .find Example.tree,
          .encode 2 node] ∧
      node.Kind = DocumentNode ∧ node.Content = [m] ∧ m.Kind = MappingNode ∧
      m.Content = [key, Example.key3] ∧ key.Value = bs "prefix") ∧
    Example.fetched "xpath=yaml.key3&newkey=prefix" =
      some (bs "prefix:\n  subkey3_1: subvalue3_1\n  subkey3_2: subvalue3_2\n") := by
  obtain ⟨node, hlog, _, _, hwrap⟩ := C6_newkey_wrapper Example.env Example.start Example.dst
    Example.document (bs "yaml.key3") [] (bs "prefix") Example.tree [bs "yaml", bs "key3"]
    Example.key3 [] rfl rfl rfl (Or.inl rfl)
  obtain ⟨m, key, h1, h2, h3, h4, _, h6, _⟩ := hwrap (by decide)
  exact ⟨⟨node, m, key, hlog, h1, h2, h3, h4, h6⟩, by decide⟩

/-- C9 on `xpath=yaml[`, a path that does not compile: the error is returned,
no call of `save` is made and the file is the download. -/
theorem C9_error_leaves_download_witness :
    Example.failure "xpath=yaml[" = some (bs "cannot create path: invalid path syntax") ∧
      (GetFile Example.env Example.start Example.dst (Example.url "xpath=yaml[")).2.files =
        Example.downloaded ∧
      (GetFile Example.env Example.start Example.dst (Example.url "xpath=yaml[")).2.log.all
        (fun c => !c.isSave) = true := by
  have h := C9_error_leaves_download Example.env Example.start Example.dst
    (Example.url "xpath=yaml[") Example.downloaded Example.document
    (bs "cannot create path: invalid path syntax") rfl rfl
    (FailsBeforeSave.newPath Example.tree (bs "invalid path syntax") (by decide) rfl rfl rfl rfl)
  refine ⟨?_, h.2.1, ?_⟩
  · unfold Example.failure
    rw [h.1]
  · obtain ⟨calls, hlog, hcalls⟩ := h.2.2
    rw [hlog, List.all_eq_true]
    intro c hc
    have hc2 : c ∈ calls := by simpa [Example.start] using hc
    simp [hcalls c hc2]

/-- C8 on `xpath=yaml.*&type=list`, which selects the three values under
`yaml`: the file holds `value1\n`, the encoding of the first of them. -/
theorem C8_list_writes_first_only_witness :
    Example.succeeded "xpath=yaml.*&type=list" = true ∧
      Example.fetched "xpath=yaml.*&type=list" = some (bs "value1\n") := by
  have h := C8_list_writes_first_only Example.env Example.start Example.dst
    (Example.url "xpath=yaml.*&type=list") Example.downloaded Example.document Example.tree
    [bs "yaml", bs "*"] (Example.scalar "value1") (Example.scalar "value2") [Example.key3]
    (bs "value1\n") (by decide) (by decide) (by decide) rfl rfl rfl rfl rfl rfl rfl rfl rfl rfl
  unfold Example.succeeded Example.fetched
  rw [h]
  exact ⟨rfl, Files.put_same Example.downloaded Example.dst (bs "value1\n")⟩

/-- C10 on `format=yaml` without `xpath`: the whole document is parsed,
queried with the empty path, encoded and written back to `dst`. -/
theorem C10_format_yaml_extracts_witness :
    (GetFile Example.env Example.start Example.dst (Example.url "format=yaml")).2.log =
      [.httpGetFile Example.dst (takeParams (Example.url "format=yaml")).u,
        .openFile Example.dst false, .readAll Example.dst, .unmarshal Example.document,
        .newPath [], .find Example.tree, .encode 2 Example.tree,
        .openFile Example.dst true, .write Example.dst Example.document] := by
  have h := C10_format_yaml_extracts Example.env Example.start Example.dst
    (Example.url "format=yaml") Example.downloaded Example.document Example.tree []
    Example.tree [] Example.document (by decide) (by decide) rfl rfl rfl rfl rfl rfl rfl
    (Or.inl rfl) rfl rfl rfl
  rw [h]
  rfl

/-- C2 as stated fails on `b=%41&xpath=yaml&a=1`: with the reserved `xpath`
taken out the pieces left are `b=%41&a=1`, but the delegate is handed
`a=1&b=A`, the keys sorted and the value written anew. -/
theorem C2_query_is_reencoded :
    (takeParams (Example.url "b=%41&xpath=yaml&a=1")).u.RawQuery = bs "a=1&b=A" ∧
      specPreservedQuery (Example.url "b=%41&xpath=yaml&a=1").RawQuery = bs "b=%41&a=1" ∧
      (takeParams (Example.url "b=%41&xpath=yaml&a=1")).u.RawQuery ≠
        specPreservedQuery (Example.url "b=%41&xpath=yaml&a=1").RawQuery := by
  decide

end Getter
